import Mathlib

/-!
Shallow embedding of the Kanban board state store of
`src/frontend/src/Views/Board.tsx`: the `dragReducer` (MOVE, ADDITEM,
UPDATE, UPDATELISTS cases plus the throwing default case), the
module-level mutable variables `issueIdIncrement`, `test` and
`issueListsNames`, and the "Add Issue List" button handler.

JavaScript arrays may hold `undefined` in a slot (e.g. the result of
destructuring an empty `splice` result), so an array slot is modelled as
`Option Issue` with `none` standing for `undefined`.  A JavaScript
object used as a string-keyed map is modelled as an insertion-ordered
association list; `state[k] = v` replaces the first binding of `k` or
appends a fresh binding at the end, exactly as JS property assignment
orders keys.
-/

/-- An issue card `{ id, content }` (the `Issue` view-model type). -/
structure Issue where
  id : String
  content : String
deriving DecidableEq

/-- A JavaScript array slot: `none` models the value `undefined`. -/
abbrev Cell := Option Issue

/-- A board state object: insertion-ordered map from list name to issue array. -/
abbrev Board := List (String × List Cell)

/-- Property read `state[key]`: first binding wins, missing key gives `undefined`. -/
def getList : Board → String → Option (List Cell)
  | [], _ => none
  | (k, v) :: rest, key => if k = key then some v else getList rest key

/-- Property write `state[key] = v`: replace the first binding of `key`,
or append a fresh binding at the end when `key` is absent. -/
def setList : Board → String → List Cell → Board
  | [], key, v => [(key, v)]
  | (k, w) :: rest, key, v =>
      if k = key then (key, v) :: rest else (k, w) :: setList rest key v

/-- `arr.splice(i, 1)` deletion part: remove the element at `i` when `i`
is in range, otherwise remove nothing. -/
def removeAt : List Cell → Nat → List Cell
  | [], _ => []
  | _ :: xs, 0 => xs
  | x :: xs, i + 1 => x :: removeAt xs i

/-- `const [removed] = arr.splice(i, 1)`: the deleted slot, with `none`
(`undefined`) when `i` is out of range. -/
def spliceOut (l : List Cell) (i : Nat) : List Cell × Cell :=
  if i < l.length then (removeAt l i, l.getD i none) else (l, none)

/-- `arr.splice(i, 0, c)` insertion: insert `c` at position `i`, clamped
to the array length (JS clamps the start index). -/
def spliceIn : List Cell → Nat → Cell → List Cell
  | l, 0, c => c :: l
  | [], _ + 1, c => [c]
  | x :: xs, i + 1, c => x :: spliceIn xs i c

/-- The MOVE case of `dragReducer` (Board.tsx lines 31-37):
`state[from] = state[from] || []`, `state[to] = state[to] || []`,
then remove at `fromIndex` in `from` and insert at `toIndex` in `to`. -/
def moveCase (st : Board) (fromList toList : String) (fromIndex toIndex : Nat) : Board :=
  let st1 := setList st fromList ((getList st fromList).getD [])
  let st2 := setList st1 toList ((getList st1 toList).getD [])
  let fl := (getList st2 fromList).getD []
  let removed := (spliceOut fl fromIndex).2
  let st3 := setList st2 fromList (spliceOut fl fromIndex).1
  let tl := (getList st3 toList).getD []
  setList st3 toList (spliceIn tl toIndex removed)

/-!  The decimal rendering performed by JavaScript
`Number.prototype.toString()` on the nonnegative integer counter. -/

/-- The decimal digit character for `d < 10`. -/
def digitChar (d : Nat) : Char := Char.ofNat (48 + d)

/-- Decimal digits of `n`, most significant first; `fuel` bounds the
recursion (any `fuel ≥ n` gives the digits of `n`). -/
def digitsGo : Nat → Nat → List Nat
  | 0, n => [n]
  | fuel + 1, n => if n < 10 then [n] else digitsGo fuel (n / 10) ++ [n % 10]

/-- JavaScript `n.toString()` for a nonnegative integer `n`. -/
def natToString (n : Nat) : String := String.mk ((digitsGo n n).map digitChar)

/-- Reads a digit string back as a number (used to prove `natToString` injective). -/
def decodeDigits (l : List Nat) : Nat := l.foldl (fun a d => 10 * a + d) 0

/-- The module-level mutable variables of Board.tsx (lines 79-80 and 201):
`issueIdIncrement`, `test` and `issueListsNames`. -/
structure Globals where
  issueIdIncrement : Nat
  test : List (Option (List Cell))
  issueListsNames : List String
deriving DecidableEq

/-- A dispatched action value, tagged by `action.type`; `unknown` stands
for any action tag other than the four handled ones. -/
inductive BoardAction where
  | move (fromList toList : String) (fromIndex toIndex : Nat)
  | addItem (pass : String) (myIndex : Nat) (myData : Option (List Cell))
  | update (myData1 myData2 myData3 : Option (List Cell))
  | updateLists
  | unknown
deriving DecidableEq

/-- A state snapshot as produced by the reducer: a plain object map
(MOVE), the `wird` record `{items, items2, items3}` (ADDITEM), or the
array of singleton objects returned by UPDATE / UPDATELISTS. -/
inductive StateVal where
  | obj (board : Board)
  | wird (items items2 items3 : Option (List Cell))
  | arr (entries : List (String × Option (List Cell)))
deriving DecidableEq

/-- `test[i] = v` on the module-level `test` array, padding missing slots
with `undefined` as JS index assignment does. -/
def listSet : List (Option (List Cell)) → Nat → Option (List Cell) → List (Option (List Cell))
  | [], 0, v => [v]
  | [], i + 1, v => none :: listSet [] i v
  | _ :: rest, 0, v => v :: rest
  | x :: rest, i + 1, v => x :: listSet rest i v

/-- `test[i]` read, `undefined` when out of range. -/
def listGet (t : List (Option (List Cell))) (i : Nat) : Option (List Cell) := t.getD i none

/-- The ADDITEM case (lines 38-56): reset `test[myIndex]`, copy
`action.myData` into it, bump `issueIdIncrement`, push the freshly
generated issue, and return the record `{items: test[0], items2: test[1],
items3: test[2]}`. -/
def addItemCase (g : Globals) (myIndex : Nat) (myData : Option (List Cell)) :
    Globals × StateVal :=
  let t1 := listSet g.test myIndex (some [])
  let base : List Cell := match myData with | none => [] | some l => l
  let n := g.issueIdIncrement + 1
  let newIssue : Cell := some ⟨natToString n, "Test" ++ natToString n⟩
  let t2 := listSet t1 myIndex (some (base ++ [newIssue]))
  ({ g with issueIdIncrement := n, test := t2 },
   .wird (listGet t2 0) (listGet t2 1) (listGet t2 2))

/-- The UPDATE case (lines 57-65): store the three payloads into
`test[0..2]` and return `issueListsNames.map(item => ({[item]: test[0]}))`. -/
def updateCase (g : Globals) (myData1 myData2 myData3 : Option (List Cell)) :
    Globals × StateVal :=
  let t1 := listSet g.test 0 myData1
  let t2 := listSet t1 1 myData2
  let t3 := listSet t2 2 myData3
  ({ g with test := t3 },
   .arr (g.issueListsNames.map (fun item => (item, listGet t3 0))))

/-- The UPDATELISTS case (lines 66-73):
`issueListsNames.map((item, index) => ({[item]: state[item]}))`. -/
def updateListsCase (g : Globals) (st : Board) : Globals × StateVal :=
  (g, .arr (g.issueListsNames.map (fun item => (item, getList st item))))

deriving instance DecidableEq for Except

/-- The whole `dragReducer` (lines 29-77); the default case
`throw new Error()` is the `.error` result. -/
def dragReducer (g : Globals) (st : Board) (a : BoardAction) :
    Except Unit (Globals × StateVal) :=
  match a with
  | .move fromList toList fromIndex toIndex =>
      .ok (g, .obj (moveCase st fromList toList fromIndex toIndex))
  | .addItem _ myIndex myData => .ok (addItemCase g myIndex myData)
  | .update d1 d2 d3 => .ok (updateCase g d1 d2 d3)
  | .updateLists => .ok (updateListsCase g st)
  | .unknown => .error ()

/-- The "Add Issue List" button handler (lines 103-110):
`issueListsNames.push('items' + issueIdIncrement++)`. -/
def addListClick (g : Globals) : Globals :=
  { g with
    issueListsNames := g.issueListsNames ++ ["items" ++ natToString g.issueIdIncrement],
    issueIdIncrement := g.issueIdIncrement + 1 }

/-- Total number of issue slots across all lists of a board. -/
def totalCount (b : Board) : Nat := (b.map (fun p => p.2.length)).sum

/-- All issue ids present anywhere in a board (skipping `undefined` slots). -/
def boardIds (st : Board) : List String :=
  (st.map (fun p => p.2.filterMap (fun c => c.map Issue.id))).flatten

/-- The `items` field of a snapshot, as read by the Add-Issue button
(`state.items`). -/
def stateItems : StateVal → Option (List Cell)
  | .obj b => getList b "items"
  | .wird a _ _ => a
  | .arr _ => none

/-- The published snapshot of a reducer run, discarding the globals. -/
def resultState : Except Unit (Globals × StateVal) → Option StateVal
  | .ok p => some p.2
  | .error _ => none

/-- The seeded issue array `data` (lines 175-192). -/
def data : List Cell :=
  [some ⟨"1", "This list is buggy"⟩,
   some ⟨"2", "I hate lists like this..."⟩,
   some ⟨"3", "Why would react do this to me"⟩,
   some ⟨"4", "HAMBURGER PLEAAAAAAAAAAAAAAAASE"⟩]

/-- `initialState = { items: data }` (line 200). -/
def initialState : Board := [("items", data)]

/-- The initial list names (line 80). -/
def seedNames : List String := ["items", "items2", "items3"]

/-- The initial values of the module-level variables (lines 79-80, 201). -/
def initialGlobals : Globals := ⟨6, [], seedNames⟩

/-- The auto-generated list name `'items' + n` (line 105). -/
def itemsName (n : Nat) : String := "items" ++ natToString n

/-! ### Lemmas about the object map operations -/

theorem getList_setList_self (b : Board) (k : String) (v : List Cell) :
    getList (setList b k v) k = some v := by
  induction b with
  | nil => simp [setList, getList]
  | cons p rest ih =>
    obtain ⟨k1, v1⟩ := p
    by_cases h : k1 = k
    · simp [setList, getList, h]
    · simp [setList, getList, h, ih]

theorem getList_setList_ne (b : Board) (key : String) (v : List Cell) (k : String)
    (h : key ≠ k) : getList (setList b key v) k = getList b k := by
  induction b with
  | nil => simp [setList, getList, h]
  | cons p rest ih =>
    obtain ⟨k1, v1⟩ := p
    by_cases h1 : k1 = key
    · subst h1
      simp [setList, getList, h]
    · simp [setList, getList, h1, ih]

theorem setList_eq_of_getList (b : Board) (k : String) (v : List Cell)
    (h : getList b k = some v) : setList b k v = b := by
  induction b with
  | nil => simp [getList] at h
  | cons p rest ih =>
    obtain ⟨k1, v1⟩ := p
    by_cases h1 : k1 = k
    · subst h1
      simp [getList] at h
      simp [setList, h]
    · simp [getList, h1] at h
      simp [setList, h1, ih h]

theorem setList_setList_self (b : Board) (k : String) (v w : List Cell) :
    setList (setList b k v) k w = setList b k w := by
  induction b with
  | nil => simp [setList]
  | cons p rest ih =>
    obtain ⟨k1, v1⟩ := p
    by_cases h : k1 = k
    · simp [setList, h]
    · simp [setList, h, ih]

theorem setList_comm_of_present (b : Board) (k1 k2 : String) (v1 v2 w : List Cell)
    (h : k1 ≠ k2) (hw : getList b k1 = some w) :
    setList (setList b k1 v1) k2 v2 = setList (setList b k2 v2) k1 v1 := by
  induction b with
  | nil => simp [getList] at hw
  | cons p rest ih =>
    obtain ⟨ka, va⟩ := p
    by_cases ha : ka = k1
    · subst ha
      simp [setList, h, Ne.symm h]
    · by_cases hb : ka = k2
      · subst hb
        simp [setList, ha, Ne.symm h, ha]
      · simp [getList, ha] at hw
        simp [setList, ha, hb, ih hw]

theorem totalCount_cons (k : String) (v : List Cell) (rest : Board) :
    totalCount ((k, v) :: rest) = v.length + totalCount rest := by
  simp [totalCount]

theorem totalCount_setList (b : Board) (k : String) (v w : List Cell)
    (h : getList b k = some v) :
    totalCount (setList b k w) + v.length = totalCount b + w.length := by
  induction b with
  | nil => simp [getList] at h
  | cons p rest ih =>
    obtain ⟨k1, v1⟩ := p
    by_cases h1 : k1 = k
    · subst h1
      simp [getList] at h
      subst h
      simp [setList, totalCount_cons]
      omega
    · simp [getList, h1] at h
      simp [setList, h1, totalCount_cons]
      have := ih h
      omega

/-! ### Lemmas about the splice operations -/

theorem length_spliceIn (l : List Cell) (i : Nat) (c : Cell) :
    (spliceIn l i c).length = l.length + 1 := by
  induction l generalizing i with
  | nil => cases i <;> simp [spliceIn]
  | cons x xs ih =>
    cases i with
    | zero => simp [spliceIn]
    | succ j => simp [spliceIn, ih]

theorem length_removeAt (l : List Cell) (i : Nat) (h : i < l.length) :
    (removeAt l i).length + 1 = l.length := by
  induction l generalizing i with
  | nil => simp at h
  | cons x xs ih =>
    cases i with
    | zero => simp [removeAt]
    | succ j =>
      simp [removeAt]
      have := ih j (by simpa using h)
      omega

theorem spliceOut_eq_of_lt (l : List Cell) (i : Nat) (h : i < l.length) :
    spliceOut l i = (removeAt l i, l.getD i none) := by
  simp [spliceOut, h]

theorem removeAt_spliceIn (l : List Cell) (i : Nat) (c : Cell) (h : i ≤ l.length) :
    removeAt (spliceIn l i c) i = l := by
  induction l generalizing i with
  | nil =>
    have : i = 0 := by simpa using h
    subst this
    simp [spliceIn, removeAt]
  | cons x xs ih =>
    cases i with
    | zero => simp [spliceIn, removeAt]
    | succ j =>
      simp [spliceIn, removeAt]
      exact ih j (by simpa using h)

theorem getD_spliceIn (l : List Cell) (i : Nat) (c : Cell) (h : i ≤ l.length) :
    (spliceIn l i c).getD i none = c := by
  induction l generalizing i with
  | nil =>
    have : i = 0 := by simpa using h
    subst this
    simp [spliceIn]
  | cons x xs ih =>
    cases i with
    | zero => simp [spliceIn]
    | succ j =>
      simp only [spliceIn, List.getD_cons_succ]
      exact ih j (by simpa using h)

theorem mem_spliceIn (l : List Cell) (i : Nat) (c : Cell) : c ∈ spliceIn l i c := by
  induction l generalizing i with
  | nil => cases i <;> simp [spliceIn]
  | cons x xs ih =>
    cases i with
    | zero => simp [spliceIn]
    | succ j =>
      simp only [spliceIn, List.mem_cons]
      exact Or.inr (ih j)

theorem spliceIn_removeAt (l : List Cell) (i : Nat) (h : i < l.length) :
    spliceIn (removeAt l i) i (l.getD i none) = l := by
  induction l generalizing i with
  | nil => simp at h
  | cons x xs ih =>
    cases i with
    | zero => simp [removeAt, spliceIn]
    | succ j =>
      simp only [removeAt, spliceIn, List.getD_cons_succ, List.cons.injEq, true_and]
      exact ih j (by simpa using h)

/-! ### The decimal rendering is injective -/

theorem decodeDigits_append_single (l : List Nat) (d : Nat) :
    decodeDigits (l ++ [d]) = 10 * decodeDigits l + d := by
  simp [decodeDigits, List.foldl_append]

theorem decodeDigits_digitsGo : ∀ fuel n, n ≤ fuel →
    decodeDigits (digitsGo fuel n) = n := by
  intro fuel
  induction fuel with
  | zero =>
    intro n h
    simp [digitsGo, decodeDigits]
  | succ fuel ih =>
    intro n h
    by_cases h10 : n < 10
    · simp [digitsGo, h10, decodeDigits]
    · have hpos : 0 < n := by omega
      have hdiv : n / 10 < n := Nat.div_lt_self hpos (by omega)
      have hle : n / 10 ≤ fuel := by omega
      have hmod := Nat.div_add_mod n 10
      simp only [digitsGo, if_neg h10, decodeDigits_append_single, ih _ hle]
      omega

theorem digitsGo_lt10 : ∀ fuel n, n ≤ fuel → ∀ d ∈ digitsGo fuel n, d < 10 := by
  intro fuel
  induction fuel with
  | zero =>
    intro n h d hd
    have : n = 0 := by omega
    subst this
    simp [digitsGo] at hd
    omega
  | succ fuel ih =>
    intro n h d hd
    by_cases h10 : n < 10
    · simp [digitsGo, h10] at hd
      omega
    · simp only [digitsGo, if_neg h10, List.mem_append, List.mem_singleton] at hd
      rcases hd with hd | hd
      · have hpos : 0 < n := by omega
        have hdiv : n / 10 < n := Nat.div_lt_self hpos (by omega)
        exact ih (n / 10) (by omega) d hd
      · subst hd
        exact Nat.mod_lt n (by omega)

theorem digitsGo_ne_nil (fuel n : Nat) : digitsGo fuel n ≠ [] := by
  cases fuel with
  | zero => simp [digitsGo]
  | succ fuel =>
    by_cases h10 : n < 10
    · simp [digitsGo, h10]
    · simp [digitsGo, h10]

theorem digitChar_inj {a b : Nat} (ha : a < 10) (hb : b < 10)
    (h : digitChar a = digitChar b) : a = b := by
  have key : ∀ x : Fin 10, ∀ y : Fin 10, digitChar x.val = digitChar y.val → x = y := by
    decide
  exact congrArg Fin.val (key ⟨a, ha⟩ ⟨b, hb⟩ h)

theorem map_digitChar_inj : ∀ (l1 l2 : List Nat), (∀ d ∈ l1, d < 10) →
    (∀ d ∈ l2, d < 10) → l1.map digitChar = l2.map digitChar → l1 = l2 := by
  intro l1
  induction l1 with
  | nil =>
    intro l2 _ _ h
    cases l2 with
    | nil => rfl
    | cons b bs => simp at h
  | cons a as ih =>
    intro l2 h1 h2 h
    cases l2 with
    | nil => simp at h
    | cons b bs =>
      simp only [List.map_cons, List.cons.injEq] at h
      have ha : a < 10 := h1 a (by simp)
      have hb : b < 10 := h2 b (by simp)
      have hab := digitChar_inj ha hb h.1
      subst hab
      have htl := ih bs (fun d hd => h1 d (by simp [hd])) (fun d hd => h2 d (by simp [hd])) h.2
      rw [htl]

theorem natToString_injective : Function.Injective natToString := by
  intro a b h
  have hd : (digitsGo a a).map digitChar = (digitsGo b b).map digitChar :=
    congrArg String.data h
  have heq := map_digitChar_inj _ _ (digitsGo_lt10 a a le_rfl) (digitsGo_lt10 b b le_rfl) hd
  have hdec := congrArg decodeDigits heq
  rwa [decodeDigits_digitsGo a a le_rfl, decodeDigits_digitsGo b b le_rfl] at hdec

theorem natToString_data_ne_nil (n : Nat) : (natToString n).data ≠ [] := by
  show (digitsGo n n).map digitChar ≠ []
  intro h
  exact digitsGo_ne_nil n n (List.map_eq_nil_iff.mp h)

theorem string_append_right_inj {s t u : String} (h : s ++ t = s ++ u) : t = u := by
  obtain ⟨a⟩ := s
  obtain ⟨b⟩ := t
  obtain ⟨c⟩ := u
  have h2 : a ++ b = a ++ c := congrArg String.data h
  exact congrArg String.mk (List.append_cancel_left h2)

theorem itemsName_inj {n m : Nat} (h : itemsName n = itemsName m) : n = m :=
  natToString_injective (string_append_right_inj h)

theorem itemsName_ne_items (n : Nat) : itemsName n ≠ "items" := by
  intro h
  have h2 : "items" ++ natToString n = "items" ++ "" := by
    rw [show ("items" ++ "" : String) = "items" from rfl]
    exact h
  have h3 : natToString n = "" := string_append_right_inj h2
  exact natToString_data_ne_nil n (congrArg String.data h3)

theorem itemsName_two : itemsName 2 = "items2" := by decide

theorem itemsName_three : itemsName 3 = "items3" := by decide

theorem nodup_append_single {α : Type} (l : List α) (a : α)
    (hl : l.Nodup) (ha : a ∉ l) : (l ++ [a]).Nodup := by
  induction l with
  | nil => simp
  | cons x xs ih =>
    simp only [List.nodup_cons] at hl
    simp only [List.mem_cons, not_or] at ha
    simp only [List.cons_append, List.nodup_cons, List.mem_append, List.mem_singleton]
    constructor
    · rintro (hx | hx)
      · exact hl.1 hx
      · exact ha.1 hx.symm
    · exact ih hl.2 ha.2

theorem listGet_listSet_self (t : List (Option (List Cell))) (i : Nat)
    (v : Option (List Cell)) : listGet (listSet t i v) i = v := by
  induction t generalizing i with
  | nil =>
    induction i with
    | zero => simp [listSet, listGet]
    | succ j ihj => simpa [listSet, listGet, List.getD] using ihj
  | cons x xs ih =>
    cases i with
    | zero => simp [listSet, listGet]
    | succ j => simpa [listSet, listGet, List.getD] using ih j

/-! ### Normal forms of the MOVE case -/

theorem moveCase_eq_of_present (st : Board) (f t : String) (fi ti : Nat)
    (fl tl : List Cell) (hf : getList st f = some fl) (ht : getList st t = some tl)
    (hfi : fi < fl.length) :
    moveCase st f t fi ti =
      setList (setList st f (removeAt fl fi)) t
        (spliceIn ((getList (setList st f (removeAt fl fi)) t).getD []) ti
          (fl.getD fi none)) := by
  simp only [moveCase]
  rw [hf, Option.getD_some, setList_eq_of_getList st f fl hf, ht, Option.getD_some,
      setList_eq_of_getList st t tl ht, hf, Option.getD_some, spliceOut_eq_of_lt fl fi hfi]

theorem moveCase_eq_ne (st : Board) (f t : String) (fi ti : Nat)
    (fl tl : List Cell) (hft : f ≠ t) (hf : getList st f = some fl)
    (ht : getList st t = some tl) (hfi : fi < fl.length) :
    moveCase st f t fi ti =
      setList (setList st f (removeAt fl fi)) t (spliceIn tl ti (fl.getD fi none)) := by
  rw [moveCase_eq_of_present st f t fi ti fl tl hf ht hfi,
      getList_setList_ne st f (removeAt fl fi) t hft, ht, Option.getD_some]

theorem moveCase_eq_same (st : Board) (f : String) (fi ti : Nat)
    (fl : List Cell) (hf : getList st f = some fl) (hfi : fi < fl.length) :
    moveCase st f f fi ti =
      setList st f (spliceIn (removeAt fl fi) ti (fl.getD fi none)) := by
  rw [moveCase_eq_of_present st f f fi ti fl fl hf hf hfi,
      getList_setList_self st f (removeAt fl fi), Option.getD_some,
      setList_setList_self]

/-! ### Claimed properties -/

/-- C1: for every state and every valid MoveIssue action (`from` and `to`
present, `fromIndex` a valid index into the `from` list, `toIndex` a valid
insertion position into the `to` list), the total number of issues summed
across all lists is preserved by the MOVE case of the reducer. -/
theorem move_preserves_total_count (st : Board) (f t : String) (fi ti : Nat)
    (fl tl : List Cell) (hf : getList st f = some fl) (ht : getList st t = some tl)
    (hfi : fi < fl.length) (hti : ti ≤ tl.length) :
    totalCount (moveCase st f t fi ti) = totalCount st := by
  by_cases hft : f = t
  · subst hft
    have htl : fl = tl := Option.some.inj (hf.symm.trans ht)
    subst htl
    rw [moveCase_eq_same st f fi ti fl hf hfi]
    have h1 := totalCount_setList st f fl
      (spliceIn (removeAt fl fi) ti (fl.getD fi none)) hf
    have h2 := length_spliceIn (removeAt fl fi) ti (fl.getD fi none)
    have h3 := length_removeAt fl fi hfi
    omega
  · rw [moveCase_eq_ne st f t fi ti fl tl hft hf ht hfi]
    have hA := totalCount_setList st f fl (removeAt fl fi) hf
    have hAt : getList (setList st f (removeAt fl fi)) t = some tl := by
      rw [getList_setList_ne st f (removeAt fl fi) t hft]
      exact ht
    have h2 := totalCount_setList (setList st f (removeAt fl fi)) t tl
      (spliceIn tl ti (fl.getD fi none)) hAt
    have h3 := length_spliceIn tl ti (fl.getD fi none)
    have h4 := length_removeAt fl fi hfi
    omega

/-- Witness for C1 at the state `{A: [x, y], B: [z]}` with
`MoveIssue(from=A, to=B, fromIndex=1, toIndex=0)`. -/
theorem move_preserves_total_count_witness :
    getList [("A", [some ⟨"1", "x"⟩, some ⟨"2", "y"⟩]), ("B", [some ⟨"3", "z"⟩])] "A"
      = some [some ⟨"1", "x"⟩, some ⟨"2", "y"⟩] ∧
    getList [("A", [some ⟨"1", "x"⟩, some ⟨"2", "y"⟩]), ("B", [some ⟨"3", "z"⟩])] "B"
      = some [some ⟨"3", "z"⟩] ∧
    (1 : Nat) < 2 ∧ (0 : Nat) ≤ 1 ∧
    totalCount (moveCase [("A", [some ⟨"1", "x"⟩, some ⟨"2", "y"⟩]),
        ("B", [some ⟨"3", "z"⟩])] "A" "B" 1 0)
      = totalCount [("A", [some ⟨"1", "x"⟩, some ⟨"2", "y"⟩]), ("B", [some ⟨"3", "z"⟩])] :=
  ⟨by decide, by decide, by decide, by decide,
   move_preserves_total_count _ "A" "B" 1 0
     [some ⟨"1", "x"⟩, some ⟨"2", "y"⟩] [some ⟨"3", "z"⟩]
     (by decide) (by decide) (by decide) (by decide)⟩

/-- C2: a valid `MoveIssue(from, to, fromIndex, toIndex)` removes the slot
at `fromIndex` from the `from` list and inserts that very slot (same id
and content) at `toIndex` of the `to` list, so `to` grows by one and
`from` shrinks by one when `from ≠ to`; when `from = to` the resulting
list is exactly the removed-then-reinserted original, its length is
unchanged, and it still carries the moved slot with its id and content. -/
theorem move_postconditions (st : Board) (f t : String) (fi ti : Nat)
    (fl tl : List Cell) (hf : getList st f = some fl) (ht : getList st t = some tl)
    (hfi : fi < fl.length) (hti : ti ≤ tl.length) :
    (f ≠ t →
      getList (moveCase st f t fi ti) f = some (removeAt fl fi) ∧
      getList (moveCase st f t fi ti) t = some (spliceIn tl ti (fl.getD fi none)) ∧
      (removeAt fl fi).length + 1 = fl.length ∧
      (spliceIn tl ti (fl.getD fi none)).length = tl.length + 1 ∧
      (spliceIn tl ti (fl.getD fi none)).getD ti none = fl.getD fi none) ∧
    (f = t →
      getList (moveCase st f t fi ti) t
        = some (spliceIn (removeAt fl fi) ti (fl.getD fi none)) ∧
      (spliceIn (removeAt fl fi) ti (fl.getD fi none)).length = tl.length ∧
      fl.getD fi none ∈ spliceIn (removeAt fl fi) ti (fl.getD fi none)) := by
  constructor
  · intro hft
    rw [moveCase_eq_ne st f t fi ti fl tl hft hf ht hfi]
    refine ⟨?_, getList_setList_self _ _ _, length_removeAt fl fi hfi,
      length_spliceIn tl ti _, getD_spliceIn tl ti _ hti⟩
    rw [getList_setList_ne _ t _ f (Ne.symm hft)]
    exact getList_setList_self _ _ _
  · intro hft
    subst hft
    have htl : fl = tl := Option.some.inj (hf.symm.trans ht)
    subst htl
    rw [moveCase_eq_same st f fi ti fl hf hfi]
    refine ⟨getList_setList_self _ _ _, ?_, mem_spliceIn _ _ _⟩
    have h1 := length_spliceIn (removeAt fl fi) ti (fl.getD fi none)
    have h2 := length_removeAt fl fi hfi
    omega

/-- Witness for C2: the spec scenario, state `{A: [x, y], B: []}` with
`MoveIssue(from=A, to=B, fromIndex=0, toIndex=0)` gives `{A: [y], B: [x]}`. -/
theorem move_postconditions_witness :
    getList [("A", [some ⟨"1", "x"⟩, some ⟨"2", "y"⟩]), ("B", [])] "A"
      = some [some ⟨"1", "x"⟩, some ⟨"2", "y"⟩] ∧
    getList [("A", [some ⟨"1", "x"⟩, some ⟨"2", "y"⟩]), ("B", [])] "B" = some [] ∧
    (0 : Nat) < 2 ∧ (0 : Nat) ≤ 0 ∧
    ((("A" : String) ≠ "B" →
      getList (moveCase [("A", [some ⟨"1", "x"⟩, some ⟨"2", "y"⟩]), ("B", [])]
          "A" "B" 0 0) "A"
        = some (removeAt [some ⟨"1", "x"⟩, some ⟨"2", "y"⟩] 0) ∧
      getList (moveCase [("A", [some ⟨"1", "x"⟩, some ⟨"2", "y"⟩]), ("B", [])]
          "A" "B" 0 0) "B"
        = some (spliceIn [] 0
            (([some ⟨"1", "x"⟩, some ⟨"2", "y"⟩] : List Cell).getD 0 none)) ∧
      (removeAt [some ⟨"1", "x"⟩, some ⟨"2", "y"⟩] 0).length + 1
        = ([some ⟨"1", "x"⟩, some ⟨"2", "y"⟩] : List Cell).length ∧
      (spliceIn [] 0
          (([some ⟨"1", "x"⟩, some ⟨"2", "y"⟩] : List Cell).getD 0 none)).length
        = ([] : List Cell).length + 1 ∧
      (spliceIn [] 0
          (([some ⟨"1", "x"⟩, some ⟨"2", "y"⟩] : List Cell).getD 0 none)).getD 0 none
        = ([some ⟨"1", "x"⟩, some ⟨"2", "y"⟩] : List Cell).getD 0 none) ∧
    (("A" : String) = "B" →
      getList (moveCase [("A", [some ⟨"1", "x"⟩, some ⟨"2", "y"⟩]), ("B", [])]
          "A" "B" 0 0) "B"
        = some (spliceIn (removeAt [some ⟨"1", "x"⟩, some ⟨"2", "y"⟩] 0) 0
            (([some ⟨"1", "x"⟩, some ⟨"2", "y"⟩] : List Cell).getD 0 none)) ∧
      (spliceIn (removeAt [some ⟨"1", "x"⟩, some ⟨"2", "y"⟩] 0) 0
          (([some ⟨"1", "x"⟩, some ⟨"2", "y"⟩] : List Cell).getD 0 none)).length
        = ([] : List Cell).length ∧
      ([some ⟨"1", "x"⟩, some ⟨"2", "y"⟩] : List Cell).getD 0 none
        ∈ spliceIn (removeAt [some ⟨"1", "x"⟩, some ⟨"2", "y"⟩] 0) 0
            (([some ⟨"1", "x"⟩, some ⟨"2", "y"⟩] : List Cell).getD 0 none))) ∧
    moveCase [("A", [some ⟨"1", "x"⟩, some ⟨"2", "y"⟩]), ("B", [])] "A" "B" 0 0
      = [("A", [some ⟨"2", "y"⟩]), ("B", [some ⟨"1", "x"⟩])] :=
  ⟨by decide, by decide, by decide, by decide,
   move_postconditions _ "A" "B" 0 0 [some ⟨"1", "x"⟩, some ⟨"2", "y"⟩] []
     (by decide) (by decide) (by decide) (by decide),
   by decide⟩

/-- C7: moving an issue from a list to the same list at the same index
(`from = to`, `fromIndex = toIndex`, valid index) leaves the state
structurally unchanged. -/
theorem move_same_position_noop (st : Board) (L : String) (i : Nat) (l : List Cell)
    (hL : getList st L = some l) (hi : i < l.length) :
    moveCase st L L i i = st := by
  rw [moveCase_eq_same st L i i l hL hi, spliceIn_removeAt l i hi,
      setList_eq_of_getList st L l hL]

/-- Witness for C7 at `{A: [x, y]}` with `MoveIssue(A, A, 1, 1)`. -/
theorem move_same_position_noop_witness :
    getList [("A", [some ⟨"1", "x"⟩, some ⟨"2", "y"⟩])] "A"
      = some [some ⟨"1", "x"⟩, some ⟨"2", "y"⟩] ∧
    (1 : Nat) < 2 ∧
    moveCase [("A", [some ⟨"1", "x"⟩, some ⟨"2", "y"⟩])] "A" "A" 1 1
      = [("A", [some ⟨"1", "x"⟩, some ⟨"2", "y"⟩])] :=
  ⟨by decide, by decide,
   move_same_position_noop _ "A" 1 [some ⟨"1", "x"⟩, some ⟨"2", "y"⟩]
     (by decide) (by decide)⟩

/-- C6 counterexample: on `{A: [x]}` the action `MoveIssue(A, A, 0, 1)` is
valid (`fromIndex 0` is in range, `toIndex 1` is a valid insertion
position), yet replaying `MoveIssue(A, A, 1, 0)` does not restore the
original state: the reverse removal is out of range, so an `undefined`
slot is inserted and the result is `{A: [undefined, x]}`. -/
theorem move_roundtrip_cex :
    getList [("A", [some ⟨"1", "x"⟩])] "A" = some [some ⟨"1", "x"⟩] ∧
    (0 : Nat) < 1 ∧ (1 : Nat) ≤ 1 ∧
    moveCase (moveCase [("A", [some ⟨"1", "x"⟩])] "A" "A" 0 1) "A" "A" 1 0
      = [("A", [none, some ⟨"1", "x"⟩])] ∧
    moveCase (moveCase [("A", [some ⟨"1", "x"⟩])] "A" "A" 0 1) "A" "A" 1 0
      ≠ [("A", [some ⟨"1", "x"⟩])] := by
  refine ⟨by decide, by decide, by decide, by decide, by decide⟩

/-- C6 (amended): moving an issue and then moving it back restores a state
structurally equal to the original, provided that for a same-list move the
destination index is strictly below the list length (for `from = to` with
`toIndex` equal to the length, the forward insertion is clamped and the
replayed removal is out of range, so the round trip fails). -/
theorem move_roundtrip (st : Board) (f t : String) (fi ti : Nat)
    (fl tl : List Cell) (hf : getList st f = some fl) (ht : getList st t = some tl)
    (hfi : fi < fl.length) (hti : ti ≤ tl.length) (hsame : f = t → ti < tl.length) :
    moveCase (moveCase st f t fi ti) t f ti fi = st := by
  by_cases hft : f = t
  · subst hft
    have htl : fl = tl := Option.some.inj (hf.symm.trans ht)
    subst htl
    have hti2 : ti < fl.length := hsame rfl
    have hRlen : (removeAt fl fi).length + 1 = fl.length := length_removeAt fl fi hfi
    have htiR : ti ≤ (removeAt fl fi).length := by omega
    rw [moveCase_eq_same st f fi ti fl hf hfi]
    have hgm : getList (setList st f (spliceIn (removeAt fl fi) ti (fl.getD fi none))) f
        = some (spliceIn (removeAt fl fi) ti (fl.getD fi none)) :=
      getList_setList_self _ _ _
    have hlen : ti < (spliceIn (removeAt fl fi) ti (fl.getD fi none)).length := by
      rw [length_spliceIn]
      omega
    rw [moveCase_eq_same _ f ti fi _ hgm hlen,
        removeAt_spliceIn _ ti _ htiR, getD_spliceIn _ ti _ htiR,
        spliceIn_removeAt fl fi hfi, setList_setList_self,
        setList_eq_of_getList st f fl hf]
  · rw [moveCase_eq_ne st f t fi ti fl tl hft hf ht hfi]
    have hm1t : getList (setList (setList st f (removeAt fl fi)) t
        (spliceIn tl ti (fl.getD fi none))) t
        = some (spliceIn tl ti (fl.getD fi none)) := getList_setList_self _ _ _
    have hm1f : getList (setList (setList st f (removeAt fl fi)) t
        (spliceIn tl ti (fl.getD fi none))) f = some (removeAt fl fi) := by
      rw [getList_setList_ne _ t _ f (Ne.symm hft)]
      exact getList_setList_self _ _ _
    have hlenT : ti < (spliceIn tl ti (fl.getD fi none)).length := by
      rw [length_spliceIn]
      omega
    rw [moveCase_eq_ne _ t f ti fi _ _ (Ne.symm hft) hm1t hm1f hlenT,
        removeAt_spliceIn tl ti _ hti, getD_spliceIn tl ti _ hti,
        spliceIn_removeAt fl fi hfi, setList_setList_self,
        setList_comm_of_present st f t (removeAt fl fi) tl fl hft hf,
        setList_setList_self, setList_eq_of_getList st t tl ht,
        setList_eq_of_getList st f fl hf]

/-- Witness for the amended C6 at `{A: [x, y], B: [z]}` with
`MoveIssue(A, B, 0, 1)` replayed as `MoveIssue(B, A, 1, 0)`. -/
theorem move_roundtrip_witness :
    getList [("A", [some ⟨"1", "x"⟩, some ⟨"2", "y"⟩]), ("B", [some ⟨"3", "z"⟩])] "A"
      = some [some ⟨"1", "x"⟩, some ⟨"2", "y"⟩] ∧
    getList [("A", [some ⟨"1", "x"⟩, some ⟨"2", "y"⟩]), ("B", [some ⟨"3", "z"⟩])] "B"
      = some [some ⟨"3", "z"⟩] ∧
    (0 : Nat) < 2 ∧ (1 : Nat) ≤ 1 ∧ (("A" : String) = "B" → (1 : Nat) < 1) ∧
    moveCase (moveCase [("A", [some ⟨"1", "x"⟩, some ⟨"2", "y"⟩]),
        ("B", [some ⟨"3", "z"⟩])] "A" "B" 0 1) "B" "A" 1 0
      = [("A", [some ⟨"1", "x"⟩, some ⟨"2", "y"⟩]), ("B", [some ⟨"3", "z"⟩])] :=
  ⟨by decide, by decide, by decide, by decide, by decide,
   move_roundtrip _ "A" "B" 0 1 [some ⟨"1", "x"⟩, some ⟨"2", "y"⟩] [some ⟨"3", "z"⟩]
     (by decide) (by decide) (by decide) (by decide) (by decide)⟩

/-! ### MOVE with a missing list name -/

theorem moveCase_missing_from (st : Board) (f t : String) (fi ti : Nat)
    (h : getList st f = none) :
    moveCase st f t fi ti = moveCase (setList st f []) f t fi ti := by
  simp only [moveCase, h, Option.getD_none, getList_setList_self, Option.getD_some,
    setList_setList_self]

theorem moveCase_frame (st : Board) (f t : String) (fi ti : Nat) (k : String)
    (hkf : k ≠ f) (hkt : k ≠ t) :
    getList (moveCase st f t fi ti) k = getList st k := by
  simp only [moveCase]
  rw [getList_setList_ne _ t _ k (Ne.symm hkt), getList_setList_ne _ f _ k (Ne.symm hkf),
      getList_setList_ne _ t _ k (Ne.symm hkt), getList_setList_ne _ f _ k (Ne.symm hkf)]

theorem moveCase_missing_to (st : Board) (f t : String) (fi ti : Nat)
    (hmt : getList st t = none) (hft : f ≠ t) :
    getList (moveCase st f t fi ti) t
      = some (spliceIn [] ti ((spliceOut ((getList st f).getD []) fi).2)) := by
  have h1 : ∀ (b : Board) (v : List Cell), getList (setList b f v) t = getList b t :=
    fun b v => getList_setList_ne b f v t hft
  have h2 : ∀ (b : Board) (v : List Cell), getList (setList b t v) f = getList b f :=
    fun b v => getList_setList_ne b t v f (Ne.symm hft)
  simp only [moveCase, h1, h2, hmt, Option.getD_none, getList_setList_self,
    Option.getD_some]

/-- C10: a MOVE whose `from` or `to` name is not a key of the state does
not fail: the reducer still returns a snapshot (never the thrown default),
a missing `from` behaves exactly as if it had first been bound to the
empty list, a missing `to` receives the splice applied to the empty list,
and every list other than `from` and `to` is left unchanged. -/
theorem move_missing_list_initialized (g : Globals) (st : Board) (f t : String)
    (fi ti : Nat) :
    dragReducer g st (.move f t fi ti) = .ok (g, .obj (moveCase st f t fi ti)) ∧
    (getList st f = none → moveCase st f t fi ti = moveCase (setList st f []) f t fi ti) ∧
    (getList st t = none → f ≠ t →
      getList (moveCase st f t fi ti) t
        = some (spliceIn [] ti ((spliceOut ((getList st f).getD []) fi).2))) ∧
    (∀ k, k ≠ f → k ≠ t → getList (moveCase st f t fi ti) k = getList st k) :=
  ⟨rfl, moveCase_missing_from st f t fi ti,
   fun hmt hft => moveCase_missing_to st f t fi ti hmt hft,
   fun k hkf hkt => moveCase_frame st f t fi ti k hkf hkt⟩

/-- Witness for C10 at `{B: [z]}` with `MoveIssue(A, B, 0, 0)` (list `A`
missing): no failure, `A` is created empty, other lists keep their value. -/
theorem move_missing_list_initialized_witness :
    getList [("B", [some ⟨"1", "z"⟩])] "A" = none ∧
    (dragReducer initialGlobals [("B", [some ⟨"1", "z"⟩])] (.move "A" "B" 0 0)
        = .ok (initialGlobals,
            .obj (moveCase [("B", [some ⟨"1", "z"⟩])] "A" "B" 0 0)) ∧
      (getList [("B", [some ⟨"1", "z"⟩])] "A" = none →
        moveCase [("B", [some ⟨"1", "z"⟩])] "A" "B" 0 0
          = moveCase (setList [("B", [some ⟨"1", "z"⟩])] "A" []) "A" "B" 0 0) ∧
      (getList [("B", [some ⟨"1", "z"⟩])] "B" = none → ("A" : String) ≠ "B" →
        getList (moveCase [("B", [some ⟨"1", "z"⟩])] "A" "B" 0 0) "B"
          = some (spliceIn [] 0
              ((spliceOut ((getList [("B", [some ⟨"1", "z"⟩])] "A").getD []) 0).2))) ∧
      (∀ k, k ≠ "A" → k ≠ "B" →
        getList (moveCase [("B", [some ⟨"1", "z"⟩])] "A" "B" 0 0) k
          = getList [("B", [some ⟨"1", "z"⟩])] k)) ∧
    moveCase [("B", [some ⟨"1", "z"⟩])] "A" "B" 0 0
      = [("B", [none, some ⟨"1", "z"⟩]), ("A", [])] :=
  ⟨by decide,
   move_missing_list_initialized initialGlobals [("B", [some ⟨"1", "z"⟩])] "A" "B" 0 0,
   by decide⟩

/-- C3 counterexample: dispatching the very same `(state, action)` pair a
second time (the module-level variables having advanced as the program
advances them) publishes a different snapshot: ADDITEM reads and writes
`issueIdIncrement` and `test`, so the result is not a function of
`(state, action)`. -/
theorem addItem_same_state_action_differs :
    resultState (dragReducer initialGlobals initialState
        (BoardAction.addItem "items" 0 (some []))) ≠
      resultState (dragReducer (addItemCase initialGlobals 0 (some [])).1 initialState
        (BoardAction.addItem "items" 0 (some []))) := by
  decide

/-- C3 (amended): the MOVE operation is deterministic and non-mutating —
its published snapshot depends only on `(state, action)`, the module-level
variables are neither read nor written, and a fresh snapshot value is
returned; ADDITEM and UPDATE, by contrast, depend on and mutate the
module-level `issueIdIncrement`/`test`, so identical dispatches can
publish different snapshots. -/
theorem move_result_independent_of_globals (g1 g2 : Globals) (st : Board)
    (f t : String) (fi ti : Nat) :
    resultState (dragReducer g1 st (.move f t fi ti))
      = resultState (dragReducer g2 st (.move f t fi ti)) ∧
    dragReducer g1 st (.move f t fi ti) = .ok (g1, .obj (moveCase st f t fi ti)) :=
  ⟨rfl, rfl⟩

/-- C4: evaluating the UPDATE case at a concrete input shows the bug — the
reducer stores the three payloads into `test[0..2]` but publishes an array
of singleton objects that all carry `test[0]`, so the issue with id `1`
appears under `items`, `items2` and `items3` while the supplied contents
for the other lists are dropped from the published snapshot. -/
theorem update_publishes_first_list_only :
    dragReducer initialGlobals initialState
        (BoardAction.update (some [some ⟨"1", "a"⟩]) (some [some ⟨"2", "b"⟩]) (some []))
      = .ok ({ issueIdIncrement := 6,
               test := [some [some ⟨"1", "a"⟩], some [some ⟨"2", "b"⟩], some []],
               issueListsNames := seedNames },
             .arr [("items", some [some ⟨"1", "a"⟩]),
                   ("items2", some [some ⟨"1", "a"⟩]),
                   ("items3", some [some ⟨"1", "a"⟩])]) := by
  decide

/-- C5: a MOVE whose `fromIndex` is out of range does not raise: the
reducer returns an ordinary snapshot in which an `undefined` slot has been
spliced in (here the empty `items` list has grown to length 1), silently
corrupting the list instead of failing fast. -/
theorem move_out_of_range_silently_corrupts :
    dragReducer initialGlobals [("items", [])] (BoardAction.move "items" "items" 0 0)
      = .ok (initialGlobals, .obj [("items", [none])]) ∧
    totalCount [("items", ([] : List Cell))] = 0 ∧
    totalCount [("items", [(none : Cell)])] = 1 := by
  refine ⟨by decide, by decide, by decide⟩

/-- C8: starting from any board whose issue ids all come from counter
values at most `issueIdIncrement` (ids are minted by the monotone counter
and never reused), two consecutive AddIssue dispatches — the second
reading `state.items` from the first published snapshot, as the UI does —
append exactly two issues in insertion order whose ids are distinct and
collide with no id already present anywhere in the board. -/
theorem addItem_twice_fresh_ids (g : Globals) (st : Board) (base : List Cell)
    (hids : ∀ s ∈ boardIds st, ∃ m, m ≤ g.issueIdIncrement ∧ s = natToString m) :
    stateItems (addItemCase (addItemCase g 0 (some base)).1 0
        (stateItems (addItemCase g 0 (some base)).2)).2
      = some (base ++
          [some ⟨natToString (g.issueIdIncrement + 1),
                 "Test" ++ natToString (g.issueIdIncrement + 1)⟩,
           some ⟨natToString (g.issueIdIncrement + 2),
                 "Test" ++ natToString (g.issueIdIncrement + 2)⟩]) ∧
    natToString (g.issueIdIncrement + 1) ≠ natToString (g.issueIdIncrement + 2) ∧
    natToString (g.issueIdIncrement + 1) ∉ boardIds st ∧
    natToString (g.issueIdIncrement + 2) ∉ boardIds st := by
  refine ⟨?_, ?_, ?_, ?_⟩
  · simp [addItemCase, stateItems, listGet_listSet_self, List.append_assoc]
  · intro h
    have := natToString_injective h
    omega
  · intro hmem
    obtain ⟨m, hm, hs⟩ := hids _ hmem
    have := natToString_injective hs
    omega
  · intro hmem
    obtain ⟨m, hm, hs⟩ := hids _ hmem
    have := natToString_injective hs
    omega

/-- Witness for C8: the spec scenario, state `{A: []}` (no ids present),
two AddIssue dispatches from the initial globals append the issues with
ids `7` and `8`, in insertion order. -/
theorem addItem_twice_fresh_ids_witness :
    (∀ s ∈ boardIds [("A", [])],
      ∃ m, m ≤ initialGlobals.issueIdIncrement ∧ s = natToString m) ∧
    (stateItems (addItemCase (addItemCase initialGlobals 0 (some [])).1 0
        (stateItems (addItemCase initialGlobals 0 (some [])).2)).2
      = some (([] : List Cell) ++
          [some ⟨natToString (initialGlobals.issueIdIncrement + 1),
                 "Test" ++ natToString (initialGlobals.issueIdIncrement + 1)⟩,
           some ⟨natToString (initialGlobals.issueIdIncrement + 2),
                 "Test" ++ natToString (initialGlobals.issueIdIncrement + 2)⟩]) ∧
      natToString (initialGlobals.issueIdIncrement + 1)
        ≠ natToString (initialGlobals.issueIdIncrement + 2) ∧
      natToString (initialGlobals.issueIdIncrement + 1) ∉ boardIds [("A", [])] ∧
      natToString (initialGlobals.issueIdIncrement + 2) ∉ boardIds [("A", [])]) :=
  ⟨by simp [boardIds],
   addItem_twice_fresh_ids initialGlobals [("A", [])] [] (by simp [boardIds])⟩

/-- The shape invariant of `issueListsNames`: the shared counter has moved
past its seed values, and every present name is either one of the three
seeded names or an auto-generated `'items' + m` for an already consumed
counter value `m`. -/
def NamesInv (g : Globals) : Prop :=
  4 ≤ g.issueIdIncrement ∧
  ∀ name ∈ g.issueListsNames,
    name ∈ seedNames ∨ ∃ m, m < g.issueIdIncrement ∧ name = itemsName m

/-- C9: from any state with pairwise-distinct list names satisfying the
counter invariant, the Add-Issue-List handler appends a freshly generated
name (`'items'` plus the strictly increasing counter) that collides with
no existing name, so the names stay pairwise distinct and the invariant is
preserved — hence any number of consecutive AddList dispatches never
produces two lists with the same name. -/
theorem addList_preserves_name_uniqueness (g : Globals)
    (hnodup : g.issueListsNames.Nodup) (hinv : NamesInv g) :
    (addListClick g).issueListsNames.Nodup ∧ NamesInv (addListClick g) := by
  obtain ⟨h4, hnames⟩ := hinv
  have hfresh : itemsName g.issueIdIncrement ∉ g.issueListsNames := by
    intro hmem
    rcases hnames _ hmem with hseed | ⟨m, hm, he⟩
    · simp only [seedNames, List.mem_cons, List.not_mem_nil, or_false] at hseed
      rcases hseed with h | h | h
      · exact itemsName_ne_items _ h
      · have := itemsName_inj (h.trans itemsName_two.symm)
        omega
      · have := itemsName_inj (h.trans itemsName_three.symm)
        omega
    · have := itemsName_inj he
      omega
  have hc : (addListClick g).issueIdIncrement = g.issueIdIncrement + 1 := rfl
  refine ⟨?_, ?_, ?_⟩
  · exact nodup_append_single _ _ hnodup hfresh
  · show 4 ≤ g.issueIdIncrement + 1
    omega
  · intro name hname
    have hname2 : name ∈ g.issueListsNames ++ [itemsName g.issueIdIncrement] := hname
    rcases List.mem_append.mp hname2 with hold | hnew
    · rcases hnames name hold with h | ⟨m, hm, he⟩
      · exact Or.inl h
      · exact Or.inr ⟨m, by omega, he⟩
    · have : name = itemsName g.issueIdIncrement := List.mem_singleton.mp hnew
      exact Or.inr ⟨g.issueIdIncrement, by omega, this⟩

/-- Witness for C9 at the initial module state (names `items`, `items2`,
`items3`, counter 6): the handler appends `items6` and uniqueness holds. -/
theorem addList_preserves_name_uniqueness_witness :
    initialGlobals.issueListsNames.Nodup ∧ NamesInv initialGlobals ∧
    ((addListClick initialGlobals).issueListsNames.Nodup ∧
      NamesInv (addListClick initialGlobals)) :=
  ⟨by decide, ⟨by decide, fun name h => Or.inl h⟩,
   addList_preserves_name_uniqueness initialGlobals (by decide)
     ⟨by decide, fun name h => Or.inl h⟩⟩
